import Mathlib

/-!
# Verification of the CPU-scheduling practice GUI (`src/GUI.py`)

A shallow embedding of the state and the pure logic of the Tkinter
application: the fixed process table, the per-cell input validation of the
timeline grid, the string captured on submission, focus movement, the
wizard's page navigation, the session dictionaries, and the master-text
export.  Python strings are sequences of characters, so string slicing and
case mapping are modelled on `String.data`; Python dicts are modelled as
insertion-ordered association lists.
-/

namespace GUI

/-- Python `s.upper()` for the strings handled here: per-character uppercase map
(`Char.toUpper` covers the basic latin letters, the only case-sensitive
characters this program compares against). -/
def py_upper (s : String) : String := ⟨s.data.map Char.toUpper⟩

/-- Python slice `s[:1]`: the first character of `s` as a string, empty when `s` is empty. -/
def py_take1 (s : String) : String := ⟨s.data.take 1⟩

/-- Python `s[-1]` for a nonempty `s`, as a one-character string (used by
`_on_keyrelease`, which only evaluates it on nonempty cell values). -/
def py_last (s : String) : String := ⟨[s.data.getLastD ' ']⟩

/-- Python `s.isalpha()`: `s` is nonempty and every character is alphabetic. -/
def py_isalpha (s : String) : Bool := !s.data.isEmpty && s.data.all Char.isAlpha

/-- The fixed process set `PROCESSES` of `GUI.py` (name, arrival, service). -/
structure Process where
  name : String
  arrival : Nat
  service : Nat
deriving DecidableEq, Repr

/-- `PROCESSES`: the five static processes. -/
def PROCESSES : List Process :=
  [⟨"A", 0, 10⟩, ⟨"B", 2, 5⟩, ⟨"C", 2, 7⟩, ⟨"D", 5, 3⟩, ⟨"E", 11, 1⟩]

/-- `TOTAL_SERVICE = sum(p["service"] for p in PROCESSES)`. -/
def TOTAL_SERVICE : Nat := (PROCESSES.map Process.service).sum

/-- `HORIZON = TOTAL_SERVICE`. -/
def HORIZON : Nat := TOTAL_SERVICE

/-- `POLICY_ORDER`: the fixed policy ordering of the wizard. -/
def POLICY_ORDER : List String := ["FIFO", "RRq2", "STCF", "MLFQ"]

/-- `is_allowed_char` from `GUI.py`: allow only the empty string, or a single
character whose uppercase form is one of `A`..`E`. -/
def is_allowed_char (s : String) : Bool :=
  if s = "" then true
  else if s.length == 1 && ["A", "B", "C", "D", "E"].contains (py_upper s) then true
  else false

/-- `TimelineGrid._validate_cell`: reject any proposed content longer than one
character, otherwise defer to `is_allowed_char`. -/
def validate_cell (proposed : String) : Bool :=
  if proposed.length > 1 then false
  else is_allowed_char proposed

/-- `TimelineGrid.get_string`: `"".join(e.get()[:1].upper() for e in self.cells)` —
the first character of every cell uppercased, concatenated; an empty cell
contributes no character. -/
def get_string (cells : List String) : String :=
  String.join (cells.map (fun e => py_upper (py_take1 e)))

/-- `TimelineGrid._move_focus`: focus moves to `index` exactly when
`0 <= index < ncells`; otherwise it stays at `cur`. -/
def move_focus (ncells : Nat) (cur : Nat) (index : Int) : Nat :=
  if 0 ≤ index ∧ index < (ncells : Int) then index.toNat else cur

/-- `TimelineGrid._on_keyrelease` fired in cell `i` (the focused cell) with event
character `ch`: a nonempty cell value is normalised to its last character
uppercased, and focus advances to `i + 1` when `ch` is an alphabetic character
whose uppercase form is `A`..`E`.  Returns the cells and the focused index
afterward. -/
def on_keyrelease (cells : List String) (i : Nat) (ch : String) : List String × Nat :=
  let val := cells.getD i ""
  let cells' := if val = "" then cells else cells.set i (py_upper (py_last val))
  let focus' :=
    if ch ≠ "" ∧ py_isalpha ch = true ∧ py_upper ch ∈ ["A", "B", "C", "D", "E"] then
      move_focus cells'.length i ((i : Int) + 1)
    else i
  (cells', focus')

/-- `TimelineGrid._handle_backspace` fired in cell `i`: when the cell is empty,
focus moves to `i - 1` (and the default deletion is suppressed); otherwise the
handler does nothing to focus.  Returns the focused index afterward. -/
def handle_backspace (cells : List String) (i : Nat) : Nat :=
  if cells.getD i "" = "" then move_focus cells.length i ((i : Int) - 1) else i

/-- Python `d.get(k)`: first-match lookup in an insertion-ordered association list. -/
def dictGet {α : Type} : List (String × α) → String → Option α
  | [], _ => none
  | (k', v) :: rest, k => if k' = k then some v else dictGet rest k

/-- Python `d.get(k, dflt)`. -/
def dictGetD {α : Type} (d : List (String × α)) (k : String) (dflt : α) : α :=
  (dictGet d k).getD dflt

/-- Python `d[k] = v`: replace the value at `k` in place when the key is present,
append `(k, v)` otherwise. -/
def dictSet {α : Type} : List (String × α) → String → α → List (String × α)
  | [], k, v => [(k, v)]
  | (k', v') :: rest, k, v =>
      if k' = k then (k, v) :: rest else (k', v') :: dictSet rest k v

/-- The survey record stored by `SurveyPage._save_and_continue`:
`{"llm_texts": ..., "ratings": ..., "feedback": ...}`. -/
structure Survey where
  llm_texts : List String
  ratings : List Int
  feedback : String
deriving DecidableEq, Repr

/-- The `App` session state: `self.responses` (policy key → timeline string) and
`self.surveys` (policy key → survey record), both Python dicts. -/
structure AppState where
  responses : List (String × String)
  surveys : List (String × Survey)
deriving DecidableEq, Repr

/-- `PolicyPage._submit`: capture the grid string and store it under this page's
policy key; nothing else in the session state is touched. -/
def submit (st : AppState) (policy_key : String) (cells : List String) : AppState :=
  { st with responses := dictSet st.responses policy_key (get_string cells) }

/-- The pages of the wizard. -/
inductive Page where
  | start
  | policy (key : String)
  | survey (key : String)
  | summary
deriving DecidableEq, Repr

/-- The navigation performed by `SurveyPage._save_and_continue`:
`idx = POLICY_ORDER.index(key)`; go to the next policy page when one exists,
else to the summary page. -/
def save_and_continue_nav (policy_key : String) : Page :=
  let idx := POLICY_ORDER.indexOf policy_key
  if idx < POLICY_ORDER.length - 1 then Page.policy (POLICY_ORDER.getD (idx + 1) "")
  else Page.summary

/-- One page transition of the wizard: the Start button goes to the FIFO policy
page, `PolicyPage._submit` goes to that policy's survey page,
`SurveyPage._save_and_continue` navigates as above, and the summary page is
terminal. -/
def wizard_step : Page → Page
  | Page.start => Page.policy "FIFO"
  | Page.policy k => Page.survey k
  | Page.survey k => save_and_continue_nav k
  | Page.summary => Page.summary

/-- The loop body over `zip(survey["llm_texts"], survey["ratings"])` with
`enumerate(..., start=i)` inside `App.format_master_txt`. -/
def llm_entries (key : String) : Nat → List String → List Int → List String
  | _, [], _ => []
  | _, _ :: _, [] => []
  | i, txt :: ts, r :: rs =>
      ("[" ++ key ++ "] LLM " ++ toString i ++ ":")
        :: txt.trim
        :: ("[" ++ key ++ "] Rating " ++ toString i ++ ": " ++ toString r
              ++ " (misconception closeness)")
        :: llm_entries key (i + 1) ts rs

/-- The per-policy block appended by `App.format_master_txt` for key `key`:
the timeline line, the stored string, the survey block when a survey record is
present, and a closing empty line. -/
def policy_entries (st : AppState) (key : String) : List String :=
  let s := dictGetD st.responses key ""
  ["[" ++ key ++ "] timeline len=" ++ toString s.length, s]
    ++ (match dictGet st.surveys key with
        | none => []
        | some survey =>
            llm_entries key 1 survey.llm_texts survey.ratings
              ++ ["[" ++ key ++ "] Overall feedback:", survey.feedback.trim])
    ++ [""]

/-- The list `out` accumulated by `App.format_master_txt` before the final
`"\n".join(out)`. -/
def master_entries (st : AppState) : List String :=
  ["CPU Scheduling Practice — Master Record\n", "Processes (Arrival, Service):"]
    ++ PROCESSES.map (fun p =>
         "  " ++ p.name ++ ": arrival=" ++ toString p.arrival
           ++ ", service=" ++ toString p.service)
    ++ [""]
    ++ (POLICY_ORDER.map (policy_entries st)).flatten

/-- `App.format_master_txt`: the exported master text. -/
def format_master_txt (st : AppState) : String :=
  String.intercalate "\n" (master_entries st)

/-- `SummaryPage._save_master_txt`, taking the path returned by the save dialog
as input (the dialog returns `""` on cancel).  The first component is the write
effect — `none` means no file is written, `some (path, contents)` means
`contents` is written to `path`; the second component is the session state
afterward. -/
def save_master_txt (st : AppState) (path : String) :
    Option (String × String) × AppState :=
  if path = "" then (none, st)
  else (some (path, format_master_txt st), st)

/-- The spec's allow-list for a proposed cell content: empty, or a single
character that is one of the letters `A`..`E` in either case. -/
def spec_allowed_cell (s : String) : Prop :=
  s = "" ∨ ∃ ch, s.data = [ch] ∧ ch ∈ ['A', 'B', 'C', 'D', 'E', 'a', 'b', 'c', 'd', 'e']

/-- Claim C3 as stated, instantiated at one session state: for each policy in
the fixed order, the export lists a horizon-length timeline (so its
`timeline len=` line shows `HORIZON`) together with three ratings each lying
in `1..7`. -/
def claim3_at (st : AppState) : Prop :=
  ∀ key ∈ POLICY_ORDER,
    ("[" ++ key ++ "] timeline len=" ++ toString HORIZON) ∈ master_entries st
    ∧ ∃ survey, dictGet st.surveys key = some survey
        ∧ survey.ratings.length = 3
        ∧ ∀ r ∈ survey.ratings, 1 ≤ r ∧ r ≤ 7

/-- A completed session in which every rating was left at the widget default `0`:
all four timelines were submitted with every cell filled, and every survey was
saved without selecting a rating button. -/
def st_default_ratings : AppState :=
  ⟨[("FIFO", "AAAAAAAAAABBBBBCCCCCCCDDDE"), ("RRq2", "AAAAAAAAAABBBBBCCCCCCCDDDE"),
    ("STCF", "AAAAAAAAAABBBBBCCCCCCCDDDE"), ("MLFQ", "AAAAAAAAAABBBBBCCCCCCCDDDE")],
   [("FIFO", ⟨["x", "y", "z"], [0, 0, 0], "c"⟩), ("RRq2", ⟨["x", "y", "z"], [0, 0, 0], "c"⟩),
    ("STCF", ⟨["x", "y", "z"], [0, 0, 0], "c"⟩), ("MLFQ", ⟨["x", "y", "z"], [0, 0, 0], "c"⟩)]⟩

/-! ## Helper lemmas -/

theorem string_length_data (s : String) : s.length = s.data.length := rfl

theorem string_eq_empty_iff {s : String} : s = "" ↔ s.data = [] := by
  rw [String.ext_iff]

theorem join_foldl_data (l : List String) (acc : String) :
    (l.foldl (fun r s => r ++ s) acc).data = acc.data ++ (l.map String.data).flatten := by
  induction l generalizing acc with
  | nil => simp
  | cons s rest ih => simp [ih]

theorem join_data (l : List String) : (String.join l).data = (l.map String.data).flatten := by
  have h := join_foldl_data l ""
  simpa [String.join, show ("" : String).data = [] from rfl] using h

theorem py_upper_data (s : String) : (py_upper s).data = s.data.map Char.toUpper := rfl

theorem py_take1_data (s : String) : (py_take1 s).data = s.data.take 1 := rfl

theorem get_string_data (cells : List String) :
    (get_string cells).data
      = (cells.map (fun e => (e.data.take 1).map Char.toUpper)).flatten := by
  unfold get_string
  rw [join_data, List.map_map]
  rfl

/-- `Char.toUpper` sends exactly the ten letters `A`..`E`, `a`..`e` into
`A`..`E`. -/
theorem toUpper_mem_iff {c : Char} :
    Char.toUpper c ∈ (['A', 'B', 'C', 'D', 'E'] : List Char)
      ↔ c ∈ (['A', 'B', 'C', 'D', 'E', 'a', 'b', 'c', 'd', 'e'] : List Char) := by
  constructor
  · intro h
    simp only [Char.toUpper] at h
    by_cases hc : c.toNat ≥ 97 ∧ c.toNat ≤ 122
    · rw [if_pos hc] at h
      obtain ⟨h1, h2⟩ := hc
      have hce : c = Char.ofNat c.toNat := (Char.ofNat_toNat c).symm
      obtain ⟨n, hn⟩ : ∃ n, c.toNat = n := ⟨_, rfl⟩
      rw [hn] at h h1 h2 hce
      interval_cases n <;>
        first
          | exact absurd h (by decide)
          | (rw [hce]; decide)
    · rw [if_neg hc] at h
      simp only [List.mem_cons, List.not_mem_nil, or_false] at h ⊢
      rcases h with h | h | h | h | h <;> simp [h]
  · intro h
    simp only [List.mem_cons, List.not_mem_nil, or_false] at h
    rcases h with h | h | h | h | h | h | h | h | h | h <;> rw [h] <;> decide

/-- Structure of the strings accepted by `is_allowed_char`: empty, or a single
character whose uppercase form is a letter `A`..`E`. -/
theorem is_allowed_char_iff {s : String} :
    is_allowed_char s = true
      ↔ s.data = [] ∨ ∃ ch, s.data = [ch] ∧ Char.toUpper ch ∈ ['A', 'B', 'C', 'D', 'E'] := by
  have dA : ("A" : String).data = ['A'] := rfl
  have dB : ("B" : String).data = ['B'] := rfl
  have dC : ("C" : String).data = ['C'] := rfl
  have dD : ("D" : String).data = ['D'] := rfl
  have dE : ("E" : String).data = ['E'] := rfl
  unfold is_allowed_char
  by_cases h0 : s = ""
  · simp [h0, string_eq_empty_iff.1 h0]
  · rw [if_neg h0]
    have hd0 : s.data ≠ [] := fun h => h0 (string_eq_empty_iff.2 h)
    constructor
    · intro h
      split at h
      · next hb =>
        rw [Bool.and_eq_true] at hb
        obtain ⟨hlen, hcont⟩ := hb
        have hlen' : s.data.length = 1 := by
          rw [← string_length_data]
          exact beq_iff_eq.mp hlen
        obtain ⟨ch, hch⟩ := List.length_eq_one.1 hlen'
        refine Or.inr ⟨ch, hch, ?_⟩
        have hupS : py_upper s = ⟨[ch.toUpper]⟩ := by
          apply String.ext
          rw [py_upper_data, hch]
          rfl
        rw [hupS] at hcont
        have hel : (⟨[ch.toUpper]⟩ : String) ∈ (["A", "B", "C", "D", "E"] : List String) :=
          List.elem_iff.mp hcont
        simp only [List.mem_cons, List.not_mem_nil, or_false, String.ext_iff,
          dA, dB, dC, dD, dE] at hel
        simp only [List.cons.injEq, and_true] at hel
        rcases hel with h | h | h | h | h <;> simp [h]
      · exact absurd h (by decide)
    · rintro (h | ⟨ch, hch, hmem⟩)
      · exact absurd h hd0
      · have hlen : (s.length == 1) = true := by
          have hl1 : s.data.length = 1 := by
            rw [hch]
            rfl
          rw [beq_iff_eq, string_length_data]
          exact hl1
        have hupS : py_upper s = ⟨[ch.toUpper]⟩ := by
          apply String.ext
          rw [py_upper_data, hch]
          rfl
        have hcont : (["A", "B", "C", "D", "E"] : List String).contains (py_upper s) = true := by
          simp only [List.mem_cons, List.not_mem_nil, or_false] at hmem
          rw [hupS]
          rcases hmem with h | h | h | h | h <;> rw [h] <;> decide
        have hb : (s.length == 1
            && (["A", "B", "C", "D", "E"] : List String).contains (py_upper s)) = true := by
          rw [Bool.and_eq_true]
          exact ⟨hlen, hcont⟩
        rw [if_pos hb]

/-- Per-cell analysis of `get_string` over valid cells: the result's characters
are uppercase `A`..`E` and its length counts the non-empty cells. -/
theorem cells_flatten_spec (cells : List String)
    (h : ∀ c ∈ cells, is_allowed_char c = true) :
    (∀ ch ∈ (cells.map (fun e => (e.data.take 1).map Char.toUpper)).flatten,
        ch ∈ ['A', 'B', 'C', 'D', 'E'])
    ∧ (cells.map (fun e => (e.data.take 1).map Char.toUpper)).flatten.length
        = cells.countP (fun c => !(c == "")) := by
  induction cells with
  | nil => simp
  | cons c rest ih =>
    have hc := h c (List.mem_cons_self ..)
    obtain ⟨ih1, ih2⟩ := ih (fun x hx => h x (List.mem_cons_of_mem _ hx))
    rcases is_allowed_char_iff.1 hc with hnil | ⟨ch, hch, hmem⟩
    · have hceq : c = "" := string_eq_empty_iff.2 hnil
      have hpc : ¬ ((fun x => !(x == "")) c = true) := by
        simp [hceq]
      constructor
      · intro x hx
        apply ih1
        simpa [hnil] using hx
      · rw [List.map_cons, List.flatten_cons, hnil, List.countP_cons_of_neg (fun x => !(x == "")) _ hpc]
        simp only [List.take_nil, List.map_nil, List.nil_append]
        exact ih2
    · have hne : ¬ c = "" := fun he => by simp [string_eq_empty_iff.1 he] at hch
      have hpc : ((fun x => !(x == "")) c) = true := by
        simp [hne]
      constructor
      · intro x hx
        rw [List.map_cons, List.flatten_cons, hch] at hx
        rcases List.mem_append.1 hx with hx | hx
        · rw [show List.take 1 [ch] = [ch] from rfl] at hx
          simp only [List.map_cons, List.map_nil, List.mem_singleton] at hx
          rw [hx]
          exact hmem
        · exact ih1 x hx
      · rw [List.map_cons, List.flatten_cons, hch, List.length_append,
          List.countP_cons_of_pos (fun x => !(x == "")) _ hpc,
          show (List.map Char.toUpper (List.take 1 [ch])).length = 1 from rfl, ih2]
        omega

/-- `get_string` over valid cells: only uppercase `A`..`E` appears, and the
length is the number of non-empty cells. -/
theorem get_string_spec (cells : List String)
    (h : ∀ c ∈ cells, is_allowed_char c = true) :
    (∀ ch ∈ (get_string cells).data, ch ∈ ['A', 'B', 'C', 'D', 'E'])
    ∧ (get_string cells).length = cells.countP (fun c => !(c == "")) := by
  rw [string_length_data, get_string_data]
  exact cells_flatten_spec cells h

/-- An all-blank grid captures the empty string. -/
theorem get_string_all_empty (cells : List String) (h : ∀ c ∈ cells, c = "") :
    get_string cells = "" := by
  apply String.ext
  rw [get_string_data]
  show _ = []
  rw [List.flatten_eq_nil_iff]
  intro l hl
  obtain ⟨c, hc, rfl⟩ := List.mem_map.1 hl
  rw [h c hc]
  rfl

theorem dictGet_dictSet_self {α : Type} (d : List (String × α)) (k : String) (v : α) :
    dictGet (dictSet d k v) k = some v := by
  induction d with
  | nil => simp [dictSet, dictGet]
  | cons p rest ih =>
    obtain ⟨k', v'⟩ := p
    by_cases h : k' = k <;> simp [dictSet, dictGet, h, ih]

theorem dictGet_dictSet_ne {α : Type} (d : List (String × α)) (k k' : String) (v : α)
    (h : k' ≠ k) : dictGet (dictSet d k v) k' = dictGet d k' := by
  have hkk : ¬ k = k' := fun he => h he.symm
  induction d with
  | nil => simp [dictSet, dictGet, hkk]
  | cons p rest ih =>
    obtain ⟨a, b⟩ := p
    by_cases ha : a = k
    · subst ha
      simp [dictSet, dictGet, hkk]
    · simp [dictSet, dictGet, ha, ih]

/-- Every entry of a policy's block occurs in the full export list. -/
theorem policy_entries_sub (st : AppState) (key : String) (hkey : key ∈ POLICY_ORDER)
    (x : String) (hx : x ∈ policy_entries st key) : x ∈ master_entries st := by
  unfold master_entries
  simp only [List.append_assoc, List.mem_append]
  exact Or.inr (Or.inr (Or.inr (List.mem_flatten_of_mem (List.mem_map_of_mem _ hkey) hx)))

/-- The per-policy export block depends only on the looked-up values. -/
theorem policy_entries_congr (r1 r2 : List (String × String)) (s1 s2 : List (String × Survey))
    (hr : ∀ k, dictGet r1 k = dictGet r2 k) (hs : ∀ k, dictGet s1 k = dictGet s2 k)
    (key : String) :
    policy_entries ⟨r1, s1⟩ key = policy_entries ⟨r2, s2⟩ key := by
  unfold policy_entries
  simp only [dictGetD]
  rw [hr key, hs key]

/-- A count over a predicate is strictly below the length as soon as one element
falsifies the predicate. -/
theorem countP_lt_of_mem_neg {α : Type} (p : α → Bool) (l : List α) (a : α)
    (ha : a ∈ l) (hpa : p a = false) : l.countP p < l.length := by
  induction l with
  | nil => cases ha
  | cons x xs ih =>
    rcases List.mem_cons.1 ha with rfl | ha'
    · rw [List.countP_cons_of_neg p _ (by simp [hpa]), List.length_cons]
      have h1 : List.countP p xs ≤ xs.length := List.countP_le_length p
      omega
    · by_cases hx : p x = true
      · rw [List.countP_cons_of_pos p _ hx, List.length_cons]
        have h1 := ih ha'
        omega
      · rw [List.countP_cons_of_neg p _ hx, List.length_cons]
        have h1 := ih ha'
        omega

/-! ## Claims -/

/-- Claim C10: for every grid whose cells are all valid (empty, or one letter
`A`..`E` in either case), `get_string` returns a string containing only the
uppercase letters `A`..`E`; its length is the number of non-empty cells, hence
at most the horizon, and strictly below the horizon whenever some cell is
blank. -/
theorem C10_get_string_valid_cells (cells : List String)
    (hlen : cells.length = HORIZON)
    (hv : ∀ c ∈ cells, is_allowed_char c = true) :
    (∀ ch ∈ (get_string cells).data, ch ∈ ['A', 'B', 'C', 'D', 'E'])
    ∧ (get_string cells).length = cells.countP (fun c => !(c == ""))
    ∧ (get_string cells).length ≤ HORIZON
    ∧ ((∃ c ∈ cells, c = "") → (get_string cells).length < HORIZON) := by
  obtain ⟨h1, h2⟩ := get_string_spec cells hv
  refine ⟨h1, h2, ?_, ?_⟩
  · rw [h2, ← hlen]
    exact List.countP_le_length _
  · rintro ⟨c, hc, hce⟩
    rw [h2, ← hlen]
    exact countP_lt_of_mem_neg _ cells c hc (by simp [hce])

/-- Witness for C10 at a concrete grid: 25 cells `"A"` and one blank cell give a
captured string of length 25, strictly below the horizon. -/
theorem C10_get_string_valid_cells_witness :
    (get_string (List.replicate 25 "A" ++ [""])).length
        = (List.replicate 25 "A" ++ [""]).countP (fun c => !(c == ""))
    ∧ (get_string (List.replicate 25 "A" ++ [""])).length < HORIZON := by
  have h := C10_get_string_valid_cells (List.replicate 25 "A" ++ [""])
    (by decide) (by decide)
  exact ⟨h.2.1, h.2.2.2 ⟨"", by decide, rfl⟩⟩

/-- Claim C1 counterexample: submitting the all-blank grid (every cell empty,
`HORIZON` cells) stores the response string `""` for `"FIFO"`, whose length `0`
differs from the horizon `26` — refuting the invariant that stored response
strings always have length `HORIZON`. -/
theorem C1_counterexample :
    dictGet (submit ⟨[], []⟩ "FIFO" (List.replicate HORIZON "")).responses "FIFO" = some ""
    ∧ ("" : String).length ≠ HORIZON := by
  constructor
  · decide
  · decide

/-- Claim C1 (amended): every timeline response string stored by a submission of
a valid grid contains only the uppercase letters `A`..`E` (a blank cell
contributes no character, so the blank never appears in the stored string), and
its length equals the number of non-empty cells — at most the horizon 26, not
always exactly the horizon. -/
theorem C1_amended_response_invariant (st : AppState) (key : String) (cells : List String)
    (hlen : cells.length = HORIZON)
    (hv : ∀ c ∈ cells, is_allowed_char c = true) :
    ∃ s, dictGet (submit st key cells).responses key = some s
      ∧ (∀ ch ∈ s.data, ch ∈ ['A', 'B', 'C', 'D', 'E'])
      ∧ s.length = cells.countP (fun c => !(c == ""))
      ∧ s.length ≤ HORIZON := by
  obtain ⟨h1, h2⟩ := get_string_spec cells hv
  refine ⟨get_string cells, dictGet_dictSet_self .., h1, h2, ?_⟩
  rw [h2, ← hlen]
  exact List.countP_le_length _

/-- Witness for the amended C1 at a concrete submission of a fully filled grid. -/
theorem C1_amended_response_invariant_witness :
    dictGet (submit ⟨[], []⟩ "FIFO" (List.replicate 26 "b")).responses "FIFO"
        = some (get_string (List.replicate 26 "b"))
    ∧ (get_string (List.replicate 26 "b")).length ≤ HORIZON := by
  obtain ⟨s, h1, h2, h3, h4⟩ := C1_amended_response_invariant ⟨[], []⟩ "FIFO"
    (List.replicate 26 "b") (by decide) (by decide)
  have hd : dictGet (submit ⟨[], []⟩ "FIFO" (List.replicate 26 "b")).responses "FIFO"
      = some (get_string (List.replicate 26 "b")) := by decide
  have hs : get_string (List.replicate 26 "b") = s := by
    have := hd.symm.trans h1
    exact Option.some.inj this
  exact ⟨hd, by rw [hs]; exact h4⟩

/-- Claim C2 counterexample: the string captured from the all-blank grid of
`HORIZON` cells is empty — its length is `0`, not the horizon 26, and it
contains no blank characters at all. -/
theorem C2_counterexample :
    get_string (List.replicate HORIZON "") = ""
    ∧ (get_string (List.replicate HORIZON "")).length ≠ HORIZON := by
  constructor
  · decide
  · decide

/-- Claim C2 (amended): submitting a grid in which every cell is empty yields
the captured string `""` (length 0 — blank cells contribute no characters), and
that empty string is what gets stored for the submitted policy. -/
theorem C2_amended_empty_grid (st : AppState) (key : String) (cells : List String)
    (h : ∀ c ∈ cells, c = "") :
    get_string cells = ""
    ∧ dictGet (submit st key cells).responses key = some "" := by
  have hg : get_string cells = "" := get_string_all_empty cells h
  constructor
  · exact hg
  · show dictGet (dictSet st.responses key (get_string cells)) key = some ""
    rw [hg]
    exact dictGet_dictSet_self ..

/-- Witness for the amended C2 at the concrete all-blank grid. -/
theorem C2_amended_empty_grid_witness :
    get_string (List.replicate HORIZON "") = ""
    ∧ dictGet (submit ⟨[], []⟩ "FIFO" (List.replicate HORIZON "")).responses "FIFO"
        = some "" :=
  C2_amended_empty_grid ⟨[], []⟩ "FIFO" (List.replicate HORIZON "")
    (fun _ hc => List.eq_of_mem_replicate hc)

/-- Claim C5: `_validate_cell` accepts exactly the empty string and the single
letters `A`..`E` in either case; every other proposed content — in particular
every string of more than one character — is rejected. -/
theorem C5_validate_cell_iff (s : String) :
    validate_cell s = true ↔ spec_allowed_cell s := by
  unfold validate_cell spec_allowed_cell
  by_cases h : s.length > 1
  · rw [if_pos h]
    constructor
    · intro hfalse
      exact absurd hfalse (by decide)
    · rintro (rfl | ⟨ch, hch, -⟩)
      · exact absurd h (by decide)
      · rw [string_length_data, hch] at h
        exact absurd h (by simp)
  · rw [if_neg h, is_allowed_char_iff]
    constructor
    · rintro (hnil | ⟨ch, hch, hmem⟩)
      · exact Or.inl (string_eq_empty_iff.2 hnil)
      · exact Or.inr ⟨ch, hch, toUpper_mem_iff.1 hmem⟩
    · rintro (rfl | ⟨ch, hch, hmem⟩)
      · exact Or.inl rfl
      · exact Or.inr ⟨ch, hch, toUpper_mem_iff.2 hmem⟩

/-- `_move_focus` with target `i + 1`. -/
theorem move_focus_add_one (n cur i : Nat) :
    move_focus n cur ((i : Int) + 1) = if i + 1 < n then i + 1 else cur := by
  unfold move_focus
  split <;> rename_i h <;> split <;> rename_i h2 <;> omega

/-- `_move_focus` with target `i - 1`. -/
theorem move_focus_sub_one (n cur i : Nat) :
    move_focus n cur ((i : Int) - 1) = if 0 < i ∧ i - 1 < n then i - 1 else cur := by
  unfold move_focus
  split <;> rename_i h <;> split <;> rename_i h2 <;> omega

/-- Claim C6: typing a letter `A`..`E` (either case) in box `i` moves focus to
box `i + 1` when it exists and leaves focus at `i` otherwise; pressing backspace
in box `i` while the box is empty moves focus to box `i - 1` when it exists
(and leaves focus at box 0 otherwise). -/
theorem C6_focus_navigation (cells : List String) (i : Nat) (hi : i < cells.length)
    (ch : String) (hch : ch ∈ ["A", "B", "C", "D", "E", "a", "b", "c", "d", "e"]) :
    ((on_keyrelease cells i ch).2 = if i + 1 < cells.length then i + 1 else i)
    ∧ (cells.getD i "" = "" → handle_backspace cells i = if 0 < i then i - 1 else i) := by
  constructor
  · have hcond : ch ≠ "" ∧ py_isalpha ch = true ∧ py_upper ch ∈ ["A", "B", "C", "D", "E"] := by
      simp only [List.mem_cons, List.not_mem_nil, or_false] at hch
      rcases hch with h | h | h | h | h | h | h | h | h | h <;> rw [h] <;>
        exact ⟨by decide, by decide, by decide⟩
    show (let val := cells.getD i ""
      let cells' := if val = "" then cells else cells.set i (py_upper (py_last val))
      let focus' :=
        if ch ≠ "" ∧ py_isalpha ch = true ∧ py_upper ch ∈ ["A", "B", "C", "D", "E"] then
          move_focus cells'.length i ((i : Int) + 1)
        else i
      (cells', focus')).2 = _
    simp only
    rw [if_pos hcond]
    by_cases hval : cells.getD i "" = ""
    · rw [if_pos hval, move_focus_add_one]
    · rw [if_neg hval, List.length_set, move_focus_add_one]
  · intro hempty
    unfold handle_backspace
    rw [if_pos hempty, move_focus_sub_one]
    have hub : i - 1 < cells.length := by omega
    by_cases h0 : 0 < i
    · rw [if_pos ⟨h0, hub⟩, if_pos h0]
    · rw [if_neg (fun hc => h0 hc.1), if_neg h0]

/-- Witness for C6 at a concrete grid: typing `"a"` in box 3 of the 26-cell
blank grid moves focus to box 4; backspace in the empty box 3 moves focus to
box 2, and in box 0 focus stays at 0. -/
theorem C6_focus_navigation_witness :
    (on_keyrelease (List.replicate 26 "") 3 "a").2 = 4
    ∧ handle_backspace (List.replicate 26 "") 3 = 2
    ∧ handle_backspace (List.replicate 26 "") 0 = 0 := by
  have h3 := C6_focus_navigation (List.replicate 26 "") 3 (by decide) "a" (by decide)
  have h0 := C6_focus_navigation (List.replicate 26 "") 0 (by decide) "a" (by decide)
  refine ⟨?_, ?_, ?_⟩
  · rw [h3.1]
    decide
  · rw [h3.2 (by decide)]
    decide
  · rw [h0.2 (by decide)]
    decide

/-- Claim C7: submitting the timeline page for policy `key` fully overwrites the
response entry for `key` with the freshly captured grid string, leaves every
other policy's response unchanged, and leaves the surveys mapping unchanged. -/
theorem C7_submit_frame (st : AppState) (key : String) (cells : List String) :
    dictGet (submit st key cells).responses key = some (get_string cells)
    ∧ (∀ k, k ≠ key → dictGet (submit st key cells).responses k = dictGet st.responses k)
    ∧ (submit st key cells).surveys = st.surveys :=
  ⟨dictGet_dictSet_self .., fun k hk => dictGet_dictSet_ne st.responses key k (get_string cells) hk, rfl⟩

/-- Claim C8: when the save dialog is cancelled (empty path), `_save_master_txt`
writes no file, raises no error, and leaves the session state unchanged. -/
theorem C8_save_cancelled (st : AppState) (path : String) (h : path = "") :
    save_master_txt st path = (none, st) := by
  unfold save_master_txt
  rw [if_pos h]

/-- Witness for C8 at the empty path and initial state. -/
theorem C8_save_cancelled_witness :
    ("" : String) = "" ∧ save_master_txt ⟨[], []⟩ "" = (none, (⟨[], []⟩ : AppState)) :=
  ⟨rfl, C8_save_cancelled ⟨[], []⟩ "" rfl⟩

/-- Claim C9: completing the survey page of the policy at position `i` of the
fixed order navigates to the timeline page of the policy at position `i + 1`
when one exists and to the summary page for the last policy; consequently the
wizard, from the start page, visits the timeline and survey pages of FIFO,
RRq2, STCF, MLFQ in order and then the summary page. -/
theorem C9_wizard_order :
    (∀ i : Fin POLICY_ORDER.length,
        save_and_continue_nav (POLICY_ORDER.get i)
          = if h : (i : Nat) + 1 < POLICY_ORDER.length
            then Page.policy (POLICY_ORDER.get ⟨(i : Nat) + 1, h⟩)
            else Page.summary)
    ∧ (List.range 10).map (fun n => wizard_step^[n] Page.start)
        = [Page.start, Page.policy "FIFO", Page.survey "FIFO",
           Page.policy "RRq2", Page.survey "RRq2",
           Page.policy "STCF", Page.survey "STCF",
           Page.policy "MLFQ", Page.survey "MLFQ", Page.summary] := by
  constructor
  · decide
  · decide

/-- A completed session state used by the C3 witness. -/
def st_complete : AppState :=
  ⟨[("FIFO", "ABC")], [("FIFO", ⟨["e1", "e2", "e3"], [1, 2, 3], "fb"⟩)]⟩

/-- Claim C3 counterexample: the claim fails at two reachable session states.
At the initial state the export shows `timeline len=0` for every policy (not the
horizon 26) and contains no rating lines, because no survey record exists; and
at a completed session whose rating buttons were never selected, the recorded
ratings are the widget default `0`, which lies outside `1..7`. -/
theorem C3_counterexample : ¬ claim3_at ⟨[], []⟩ ∧ ¬ claim3_at st_default_ratings := by
  constructor
  · intro h
    obtain ⟨-, survey, hs, -, -⟩ := h "FIFO" (by decide)
    simp [dictGet] at hs
  · intro h
    obtain ⟨-, survey, hs, -, hr⟩ := h "FIFO" (by decide)
    have hd : dictGet st_default_ratings.surveys "FIFO"
        = some (⟨["x", "y", "z"], [0, 0, 0], "c"⟩ : Survey) := by decide
    rw [hd] at hs
    obtain rfl : (⟨["x", "y", "z"], [0, 0, 0], "c"⟩ : Survey) = survey :=
      Option.some.inj hs
    have h0 := hr 0 (by decide)
    exact absurd h0.1 (by decide)

/-- Every policy block starts with the `timeline len=` line followed by the
stored string, whatever the survey part is. -/
theorem policy_entries_head (st : AppState) (key : String) :
    ∃ tail, policy_entries st key
      = ("[" ++ key ++ "] timeline len=" ++ toString (dictGetD st.responses key "").length)
        :: dictGetD st.responses key "" :: tail := by
  unfold policy_entries
  exact ⟨_, rfl⟩

/-- Claim C3 (amended): for every session state and every policy of the fixed
order, the exported master text contains the policy's block: the
`timeline len=` line showing the stored string's actual length (the number of
non-empty cells at submission, not necessarily the horizon) and the stored
string itself — unconditionally — and, whenever a survey record with its three
explanations and three ratings exists for that policy, one rating line per
pair showing the captured rating value (which is whatever integer was
captured, `0` by default, not necessarily in `1..7`), together with the
overall-feedback heading. -/
theorem C3_amended_export_blocks (st : AppState) (key : String) (hkey : key ∈ POLICY_ORDER) :
    ("[" ++ key ++ "] timeline len=" ++ toString (dictGetD st.responses key "").length)
        ∈ master_entries st
    ∧ (dictGetD st.responses key "") ∈ master_entries st
    ∧ (∀ survey : Survey, dictGet st.surveys key = some survey →
        ∀ t1 t2 t3 : String, ∀ r1 r2 r3 : Int,
          survey.llm_texts = [t1, t2, t3] → survey.ratings = [r1, r2, r3] →
          ("[" ++ key ++ "] Rating " ++ toString (1 : Nat) ++ ": " ++ toString r1
              ++ " (misconception closeness)") ∈ master_entries st
          ∧ ("[" ++ key ++ "] Rating " ++ toString (2 : Nat) ++ ": " ++ toString r2
              ++ " (misconception closeness)") ∈ master_entries st
          ∧ ("[" ++ key ++ "] Rating " ++ toString (3 : Nat) ++ ": " ++ toString r3
              ++ " (misconception closeness)") ∈ master_entries st
          ∧ ("[" ++ key ++ "] Overall feedback:") ∈ master_entries st) := by
  have hsub := policy_entries_sub st key hkey
  obtain ⟨tail, htail⟩ := policy_entries_head st key
  refine ⟨hsub _ ?_, hsub _ ?_, ?_⟩
  · rw [htail]
    exact List.mem_cons_self ..
  · rw [htail]
    exact List.mem_cons_of_mem _ (List.mem_cons_self ..)
  · intro survey hs t1 t2 t3 r1 r2 r3 ht hr
    have hpe : policy_entries st key
        = ["[" ++ key ++ "] timeline len=" ++ toString (dictGetD st.responses key "").length,
           dictGetD st.responses key ""]
          ++ (llm_entries key 1 survey.llm_texts survey.ratings
              ++ ["[" ++ key ++ "] Overall feedback:", survey.feedback.trim])
          ++ [""] := by
      unfold policy_entries
      rw [hs]
    refine ⟨hsub _ ?_, hsub _ ?_, hsub _ ?_, hsub _ ?_⟩ <;>
      · rw [hpe, ht, hr]
        simp [llm_entries]

/-- Witness for the amended C3: the unconditional timeline part at the
survey-less initial state, and both parts at a concrete completed state. -/
theorem C3_amended_export_blocks_witness :
    ("[" ++ "FIFO" ++ "] timeline len="
        ++ toString (dictGetD (⟨[], []⟩ : AppState).responses "FIFO" "").length)
      ∈ master_entries ⟨[], []⟩
    ∧ ("[" ++ "FIFO" ++ "] timeline len="
        ++ toString (dictGetD st_complete.responses "FIFO" "").length)
      ∈ master_entries st_complete
    ∧ ("[" ++ "FIFO" ++ "] Rating " ++ toString (1 : Nat) ++ ": " ++ toString (1 : Int)
        ++ " (misconception closeness)") ∈ master_entries st_complete := by
  have h0 := C3_amended_export_blocks ⟨[], []⟩ "FIFO" (by decide)
  have h := C3_amended_export_blocks st_complete "FIFO" (by decide)
  exact ⟨h0.1, h.1,
    (h.2.2 ⟨["e1", "e2", "e3"], [1, 2, 3], "fb"⟩ (by decide) "e1" "e2" "e3" 1 2 3 rfl rfl).1⟩

/-- Claim C4: `format_master_txt` is a pure function of the session mappings —
two states whose `responses` and `surveys` dictionaries hold the same values at
every key produce byte-identical exported strings. -/
theorem C4_format_deterministic (r1 r2 : List (String × String)) (s1 s2 : List (String × Survey))
    (hr : ∀ k, dictGet r1 k = dictGet r2 k) (hs : ∀ k, dictGet s1 k = dictGet s2 k) :
    format_master_txt ⟨r1, s1⟩ = format_master_txt ⟨r2, s2⟩ := by
  have hpe : policy_entries ⟨r1, s1⟩ = policy_entries ⟨r2, s2⟩ :=
    funext (policy_entries_congr r1 r2 s1 s2 hr hs)
  unfold format_master_txt master_entries
  rw [hpe]

/-- Witness for C4: two different list representations of the same mapping (the
second carries a shadowed duplicate key) give byte-identical exports. -/
theorem C4_format_deterministic_witness :
    format_master_txt ⟨[("FIFO", "ABC")], []⟩
      = format_master_txt ⟨[("FIFO", "ABC"), ("FIFO", "shadowed")], []⟩ := by
  apply C4_format_deterministic
  · intro k
    by_cases h : "FIFO" = k <;> simp [dictGet, h]
  · intro k
    rfl

end GUI
